import Mathlib

/-!
Verification of the action-extraction and validation protocol of the
el-dorado-score-keeper AI smoke-test suite (src/ai-smoke-test).

Text values are modelled as `List Char`.  Python string primitives
(`strip`, `split`, `find`, `rfind`, slicing, `startswith`, `endswith`)
are translated one by one; `json.loads` is modelled by a recursive
descent JSON reader over the same representation.
-/

namespace SmokeTest

/-! ## Python string primitives -/

/-- The left brace character, written numerically. -/
def lbrace : Char := Char.ofNat 123

/-- The right brace character, written numerically. -/
def rbrace : Char := Char.ofNat 125

/-- Characters removed by Python `str.strip()` (ASCII whitespace). -/
def pySpace (c : Char) : Bool :=
  c = ' ' || c = '\t' || c = '\n' || c = '\r' || c = Char.ofNat 11 || c = Char.ofNat 12

/-- Python `str.lstrip()`. -/
def lstrip (s : List Char) : List Char := s.dropWhile pySpace

/-- Python `str.rstrip()`. -/
def rstrip (s : List Char) : List Char := (s.reverse.dropWhile pySpace).reverse

/-- Python `str.strip()`. -/
def pyStrip (s : List Char) : List Char := rstrip (lstrip s)

/-- Python `s.split(chr(10))`: split on newline, keeping empty pieces;
the result always has one more piece than there are newlines. -/
def splitNL : List Char → List (List Char)
  | [] => [[]]
  | c :: t =>
    if c = '\n' then [] :: splitNL t
    else
      match splitNL t with
      | [] => [[c]]
      | l :: ls => (c :: l) :: ls

/-- Python `chr(10).join(pieces)`. -/
def joinNL : List (List Char) → List Char
  | [] => []
  | [l] => l
  | l :: ls => l ++ '\n' :: joinNL ls

/-- Python `s.find(c)`: index of the first occurrence, `none` for -1. -/
def findIdxC (c : Char) : List Char → Option Nat
  | [] => none
  | a :: t => if a = c then some 0 else (findIdxC c t).map (· + 1)

/-- Python `s.rfind(c)`: index of the last occurrence, `none` for -1. -/
def rfindIdxC (c : Char) (s : List Char) : Option Nat :=
  (findIdxC c s.reverse).map (fun i => s.length - 1 - i)

/-- Python `s.startswith(p)`. -/
def startsWithL (p s : List Char) : Bool := p.isPrefixOf s

/-- Python `s.endswith(p)`. -/
def endsWithL (p s : List Char) : Bool := p.isSuffixOf s

/-! ## Markdown fence stripping (shared by parse_action and the choice
transformers; ai_smoke_test.py lines 376-383, 110-117 and
ai_smoke_test_clean.py lines 51-57 all use this exact shape). -/

/-- The plain triple-backtick delimiter. -/
def fenceTag : List Char := "```".data

/-- The json-tagged fence opener. -/
def fenceJsonTag : List Char := "```json".data

/-- Python `chr(10).join(content.split(chr(10))[1:-1])`:
drop the first and the last line. -/
def stripFenceLines (t : List Char) : List Char :=
  joinNL (((splitNL t).drop 1).dropLast)

/-- The fence-stripping step of `parse_action`: if the (already
stripped) text both starts and ends with a fence delimiter (json-tagged
or not), drop its first and last line; otherwise keep it. -/
def deFence (t : List Char) : List Char :=
  if startsWithL fenceJsonTag t && endsWithL fenceTag t then stripFenceLines t
  else if startsWithL fenceTag t && endsWithL fenceTag t then stripFenceLines t
  else t

/-- Whether the fence-stripping branch fires on `t`. -/
def isFenced (t : List Char) : Bool :=
  (startsWithL fenceJsonTag t && endsWithL fenceTag t) ||
  (startsWithL fenceTag t && endsWithL fenceTag t)

/-! ## Brace extraction -/

/-- Lines 385-392 of ai_smoke_test.py: `start = content.find(lbrace)`,
`end = content.rfind(rbrace)`; fail if either is absent or
`end <= start`, otherwise the inclusive slice `content[start:end+1]`. -/
def extractBraces (content : List Char) : Option (List Char) :=
  match findIdxC lbrace content, rfindIdxC rbrace content with
  | some s, some e => if s < e then some ((content.drop s).take (e + 1 - s)) else none
  | some _, none => none
  | none, _ => none

/-! ## JSON values and a model of Python `json.loads` -/

/-- JSON values.  Numbers keep their source lexeme, which is all the
adapter layer ever looks at. -/
inductive Json where
  | null : Json
  | bool (b : Bool) : Json
  | num (lit : List Char) : Json
  | str (s : List Char) : Json
  | arr (elems : List Json) : Json
  | obj (fields : List (List Char × Json)) : Json

/-- Python `k in d` for a decoded JSON object (`False` on non-dicts,
which cannot reach the membership tests in the sources). -/
def hasKey (j : Json) (k : List Char) : Bool :=
  match j with
  | .obj fields => fields.any (fun f => f.1 == k)
  | _ => false

/-- Python `d[k]` as an `Option`. -/
def lookupKey (j : Json) (k : List Char) : Option Json :=
  match j with
  | .obj fields => (fields.find? (fun f => f.1 == k)).map (fun f => f.2)
  | _ => none

/-- JSON insignificant whitespace. -/
def jsonWs (c : Char) : Bool := c = ' ' || c = '\t' || c = '\n' || c = '\r'

/-- Skip insignificant whitespace. -/
def skipWs (s : List Char) : List Char := s.dropWhile jsonWs

/-- Hexadecimal digit value, via the code point: digits, then the
lowercase letters from 97, then the uppercase letters from 65. -/
def hexVal (c : Char) : Option Nat :=
  let n := c.toNat
  if 48 ≤ n ∧ n ≤ 57 then some (n - 48)
  else if 97 ≤ n ∧ n ≤ 102 then some (n - 87)
  else if 65 ≤ n ∧ n ≤ 70 then some (n - 55)
  else none

/-- Read a JSON string body (the opening quote already consumed),
decoding the standard escapes; returns the decoded characters and the
rest of the input. -/
def parseStringBody : Nat → List Char → Except (List Char) (List Char × List Char)
  | 0, _ => .error "depth".data
  | _ + 1, [] => .error "Unterminated string".data
  | fuel + 1, c :: rest =>
    if c = '"' then .ok ([], rest)
    else if c = '\\' then
      match rest with
      | [] => .error "Unterminated string".data
      | e :: rest2 =>
        if e = 'u' then
          match rest2 with
          | h1 :: h2 :: h3 :: h4 :: rest3 =>
            match hexVal h1, hexVal h2, hexVal h3, hexVal h4 with
            | some v1, some v2, some v3, some v4 =>
              match parseStringBody fuel rest3 with
              | .ok (tail, r) =>
                .ok (Char.ofNat (((v1 * 16 + v2) * 16 + v3) * 16 + v4) :: tail, r)
              | .error d => .error d
            | _, _, _, _ => .error "Invalid hex escape".data
          | _ => .error "Invalid hex escape".data
        else
          match
            (if e = '"' then some '"'
             else if e = '\\' then some '\\'
             else if e = '/' then some '/'
             else if e = 'b' then some (Char.ofNat 8)
             else if e = 'f' then some (Char.ofNat 12)
             else if e = 'n' then some '\n'
             else if e = 'r' then some '\r'
             else if e = 't' then some '\t'
             else none) with
          | some d =>
            match parseStringBody fuel rest2 with
            | .ok (tail, r) => .ok (d :: tail, r)
            | .error d2 => .error d2
          | none => .error "Invalid escape".data
    else if c.toNat < 32 then .error "Invalid control character".data
    else
      match parseStringBody fuel rest with
      | .ok (tail, r) => .ok (c :: tail, r)
      | .error d => .error d

/-- Lex a JSON number: optional minus, integer part without leading
zeros, optional fraction, optional exponent.  Returns the lexeme and
the rest of the input. -/
def parseNumberLex (s : List Char) : Option (List Char × List Char) :=
  let signRest : List Char × List Char :=
    match s with
    | c :: t => if c = '-' then ([c], t) else ([], s)
    | [] => ([], s)
  let sign := signRest.1
  match signRest.2 with
  | [] => none
  | c :: t =>
    if c = '0' ∨ ¬ c.isDigit then
      if c = '0' then
        let afterInt := t
        let fracRest : Option (List Char × List Char) :=
          match afterInt with
          | p :: u =>
            if p = '.' then
              let ds := u.takeWhile Char.isDigit
              if ds = [] then none else some (p :: ds, u.drop ds.length)
            else some ([], afterInt)
          | [] => some ([], afterInt)
        match fracRest with
        | none => none
        | some (frac, afterFrac) =>
          let expRest : Option (List Char × List Char) :=
            match afterFrac with
            | p :: u =>
              if p = 'e' ∨ p = 'E' then
                let signedU : List Char × List Char :=
                  match u with
                  | q :: v => if q = '+' ∨ q = '-' then ([q], v) else ([], u)
                  | [] => ([], u)
                let ds := signedU.2.takeWhile Char.isDigit
                if ds = [] then none
                else some (p :: (signedU.1 ++ ds), signedU.2.drop ds.length)
              else some ([], afterFrac)
            | [] => some ([], afterFrac)
          match expRest with
          | none => none
          | some (ex, afterExp) => some (sign ++ [c] ++ frac ++ ex, afterExp)
      else none
    else
      let ds := t.takeWhile Char.isDigit
      let afterInt := t.drop ds.length
      let fracRest : Option (List Char × List Char) :=
        match afterInt with
        | p :: u =>
          if p = '.' then
            let fs := u.takeWhile Char.isDigit
            if fs = [] then none else some (p :: fs, u.drop fs.length)
          else some ([], afterInt)
        | [] => some ([], afterInt)
      match fracRest with
      | none => none
      | some (frac, afterFrac) =>
        let expRest : Option (List Char × List Char) :=
          match afterFrac with
          | p :: u =>
            if p = 'e' ∨ p = 'E' then
              let signedU : List Char × List Char :=
                match u with
                | q :: v => if q = '+' ∨ q = '-' then ([q], v) else ([], u)
                | [] => ([], u)
              let es := signedU.2.takeWhile Char.isDigit
              if es = [] then none
              else some (p :: (signedU.1 ++ es), signedU.2.drop es.length)
            else some ([], afterFrac)
          | [] => some ([], afterFrac)
        match expRest with
        | none => none
        | some (ex, afterExp) => some (sign ++ (c :: ds) ++ frac ++ ex, afterExp)

mutual

/-- Read one JSON value from the head of the input. -/
def parseValue : Nat → List Char → Except (List Char) (Json × List Char)
  | 0, _ => .error "depth".data
  | fuel + 1, s =>
    match s with
    | [] => .error "Expecting value".data
    | c :: rest =>
      if c = '"' then
        match parseStringBody (rest.length + 1) rest with
        | .ok (cs, r) => .ok (.str cs, r)
        | .error d => .error d
      else if c = lbrace then parseObjectBody fuel (skipWs rest) []
      else if c = '[' then parseArrayBody fuel (skipWs rest) []
      else if c = 't' then
        if startsWithL "rue".data rest then .ok (.bool true, rest.drop 3)
        else .error "Expecting value".data
      else if c = 'f' then
        if startsWithL "alse".data rest then .ok (.bool false, rest.drop 4)
        else .error "Expecting value".data
      else if c = 'n' then
        if startsWithL "ull".data rest then .ok (.null, rest.drop 3)
        else .error "Expecting value".data
      else
        match parseNumberLex s with
        | some (lex, r) => .ok (.num lex, r)
        | none => .error "Expecting value".data

/-- Read the members of a JSON object, the opening brace and leading
whitespace already consumed; `acc` holds the members read so far in
reverse. -/
def parseObjectBody : Nat → List Char → List (List Char × Json) →
    Except (List Char) (Json × List Char)
  | 0, _, _ => .error "depth".data
  | _ + 1, [], _ => .error "Expecting property name enclosed in double quotes".data
  | fuel + 1, c :: rest, acc =>
    if (c == rbrace) && acc.isEmpty then .ok (.obj [], rest)
    else if c = '"' then
      match parseStringBody (rest.length + 1) rest with
      | .error d => .error d
      | .ok (key, afterKey) =>
        match skipWs afterKey with
        | ':' :: afterColon =>
          match parseValue fuel (skipWs afterColon) with
          | .error d => .error d
          | .ok (v, afterVal) =>
            match skipWs afterVal with
            | ',' :: afterComma =>
              parseObjectBody fuel (skipWs afterComma) ((key, v) :: acc)
            | d :: afterClose =>
              if d = rbrace then .ok (.obj (((key, v) :: acc).reverse), afterClose)
              else .error "Expecting comma delimiter".data
            | [] => .error "Expecting comma delimiter".data
        | _ => .error "Expecting colon delimiter".data
    else .error "Expecting property name enclosed in double quotes".data

/-- Read the elements of a JSON array, the opening bracket and leading
whitespace already consumed; `acc` holds the elements read so far in
reverse. -/
def parseArrayBody : Nat → List Char → List Json →
    Except (List Char) (Json × List Char)
  | 0, _, _ => .error "depth".data
  | _ + 1, [], _ => .error "Expecting value".data
  | fuel + 1, c :: rest, acc =>
    if (c == ']') && acc.isEmpty then .ok (.arr [], rest)
    else
      match parseValue fuel (c :: rest) with
      | .error d => .error d
      | .ok (v, afterVal) =>
        match skipWs afterVal with
        | ',' :: afterComma => parseArrayBody fuel (skipWs afterComma) (v :: acc)
        | ']' :: afterClose => .ok (.arr ((v :: acc).reverse), afterClose)
        | _ => .error "Expecting comma delimiter".data

end

/-- Model of Python `json.loads`: one JSON value surrounded by
whitespace only; anything left over is the Extra data error. -/
def pyJsonLoads (s : List Char) : Except (List Char) Json :=
  match parseValue (s.length + 4) (skipWs s) with
  | .error e => .error e
  | .ok (v, rest) => if skipWs rest = [] then .ok v else .error "Extra data".data

/-! ## The Action Parser (parse_action, ai_smoke_test.py lines 374-402) -/

/-- The four parse-failure tags returned by `parse_action`. -/
inductive ParseFailure where
  | noJson : ParseFailure
  | badJson (diag : List Char) : ParseFailure
  | noAction : ParseFailure
  | noParams : ParseFailure
deriving DecidableEq

/-- The failure strings as the source formats them. -/
def renderFailure : ParseFailure → List Char
  | .noJson => "no-json".data
  | .badJson d => "bad-json: ".data ++ d
  | .noAction => "no-action".data
  | .noParams => "no-params".data

/-- The object key named action. -/
def actionKey : List Char := "action".data

/-- The object key named params. -/
def paramsKey : List Char := "params".data

/-- ai_smoke_test.py lines 374-402: strip, de-fence, slice from the
first left brace to the last right brace, decode, then require the
action and params keys.  The Python original returns the pair
`(obj, None)` on success and `(None, err)` on failure; `Except` carries
the same two outcomes. -/
def parse_action (rawText : List Char) : Except ParseFailure Json :=
  let content := deFence (pyStrip rawText)
  match extractBraces content with
  | none => .error .noJson
  | some sub =>
    match pyJsonLoads sub with
    | .error e => .error (.badJson e)
    | .ok obj =>
      if hasKey obj actionKey then
        if hasKey obj paramsKey then .ok obj
        else .error .noParams
      else .error .noAction

/-! ## The Retry Coordinator
(validate_and_retry_llm_response, ai_smoke_test.py lines 404-461)

A corrective model call is modelled by its outcome: `.error msg` when
the call to the endpoint raises, `.ok text` when it returns a response
whose first choice has content `text`. -/

/-- The configured application URL (default of the APP_URL variable). -/
def appUrl : List Char := "http://localhost:3000".data

/-- Content of the single corrective user message of the first retry
(line 416). -/
def correctiveHint (err : ParseFailure) : List Char :=
  "Reply with ONLY JSON: \x7b\"action\": \"goto\", \"params\": \x7b\"url\": \"http://localhost:3000\"\x7d\x7d\n\nError: ".data
    ++ renderFailure err

/-- Content of the single corrective user message of the final retry
(line 439). -/
def finalTemplateMessage : List Char :=
  "Respond exactly: \x7b\"action\": \"goto\", \"params\": \x7b\"url\": \"http://localhost:3000\"\x7d\x7d".data

/-- Outcome of the coordinator: `success` is the returned pair
`(validated_text, action)`; `exhausted` is the raised `ValueError`,
carrying the two values the source interpolates into its message: the
current parse-failure string `err` and the variable `raw_content`. -/
inductive VOutcome where
  | success (text : List Char) (action : Json) : VOutcome
  | exhausted (lastErr : List Char) (lastResponse : List Char) : VOutcome

/-- The message of the raised `ValueError` (line 458). -/
def exhaustedMessage (err raw : List Char) : List Char :=
  "LLM did not return a valid action JSON after retries. Error: ".data ++ err
    ++ "\nLast response: ".data ++ raw

/-- Lines 436-456: the final retry.  `errCur` is the current value of
the `err` variable when the second corrective call is issued.  The
`try/except` around the call catches any exception from the endpoint,
so a raising call falls through to the terminal `ValueError`, which
interpolates the current `err` and the original `raw_content`. -/
def finalRetryStep (rawContent : List Char) (call2 : Except (List Char) (List Char))
    (errCur : ParseFailure) : VOutcome × Nat :=
  match call2 with
  | .ok finalContent =>
    match parse_action finalContent with
    | .ok obj => (.success finalContent obj, 2)
    | .error err2 => (.exhausted (renderFailure err2) rawContent, 2)
  | .error _ => (.exhausted (renderFailure errCur) rawContent, 2)

/-- ai_smoke_test.py lines 404-461.  The second component counts the
corrective model calls issued (zero, one or two).  The `try/except`
around the first corrective call (lines 419-433) catches any exception
from the endpoint and continues to the final retry with `err`
unchanged. -/
def validate_and_retry_llm_response (rawContent : List Char)
    (call1 call2 : Except (List Char) (List Char)) : VOutcome × Nat :=
  match parse_action rawContent with
  | .ok obj => (.success rawContent obj, 0)
  | .error err0 =>
    match call1 with
    | .ok retryContent =>
      match parse_action retryContent with
      | .ok obj => (.success retryContent obj, 1)
      | .error err1 =>
        let r := finalRetryStep rawContent call2 err1
        (r.1, r.2)
    | .error _ =>
      let r := finalRetryStep rawContent call2 err0
      (r.1, r.2)

/-! ## The Response Normalizer
(OpenAIResponseInterceptor._transform_choices: ai_smoke_test.py
lines 103-129 and ai_smoke_test_clean.py lines 43-90)

A choice is modelled by its message content (`none` for a null
content) together with its current `action` attribute (`none` when the
attribute has never been set). -/

/-- The fallback action of the clean variant and of
FixedOpenAIWrapper: a click on Start Single Player. -/
def fallbackClickAction : Json :=
  .obj [(actionKey, .str "click".data),
        (paramsKey, .obj [("text".data, .str "Start Single Player".data)])]

/-- ai_smoke_test.py lines 106-129, for one choice: the action value
the loop body assigns to `choice.action`, or `none` when the body
assigns nothing (empty or missing content, no brace pair, a decode
error caught by the `except`, or a decoded object without the action
key). -/
def transformChoiceMain (content : Option (List Char)) : Option Json :=
  match content with
  | none => none
  | some s =>
    if s.isEmpty then none
    else
      match extractBraces (deFence (pyStrip s)) with
      | none => none
      | some sub =>
        match pyJsonLoads sub with
        | .error _ => none
        | .ok parsed => if hasKey parsed actionKey then some parsed else none

/-- ai_smoke_test_clean.py lines 45-90, for one choice: the parsed
object when a JSON object with an action key is found, otherwise the
fallback click action; nothing when the content is empty or missing
(the loop body is skipped entirely). -/
def transformChoiceClean (content : Option (List Char)) : Option Json :=
  match content with
  | none => none
  | some s =>
    if s.isEmpty then none
    else
      match extractBraces (deFence (pyStrip s)) with
      | some sub =>
        match pyJsonLoads sub with
        | .ok parsed =>
          if hasKey parsed actionKey then some parsed
          else some fallbackClickAction
        | .error _ => some fallbackClickAction
      | none => some fallbackClickAction

/-- One choice of a response: message content and current action
attribute. -/
def Choice : Type := Option (List Char) × Option Json

/-- The effect of the main transformer loop on one choice: the action
attribute is overwritten when the body assigns one, kept otherwise. -/
def updateChoiceMain (ch : Choice) : Choice :=
  match transformChoiceMain ch.1 with
  | some a => (ch.1, some a)
  | none => ch

/-- The effect of the clean transformer loop on one choice. -/
def updateChoiceClean (ch : Choice) : Choice :=
  match transformChoiceClean ch.1 with
  | some a => (ch.1, some a)
  | none => ch

/-- The main `_transform_choices` over the whole choice list: the
per-choice `try/except` means every choice is processed. -/
def transformChoicesMain (chs : List Choice) : List Choice :=
  chs.map updateChoiceMain

/-- The clean `_transform_choices` over the whole choice list. -/
def transformChoicesClean (chs : List Choice) : List Choice :=
  chs.map updateChoiceClean

/-! ## Usage rewriting (CompletionsInterceptor.create,
ai_smoke_test_clean.py lines 249-261) -/

/-- The usage attribute of a response: absent (or None), a
CompletionUsage-style object carrying the three token counters as
attributes, or the plain six-key dict the rewrite builds. -/
inductive UsageVal where
  | missing : UsageVal
  | tokenObj (promptTokens completionTokens totalTokens : Nat) : UsageVal
  | tokenDict (promptTokens completionTokens totalTokens
      promptCachedTokens promptCacheCreationTokens promptImageTokens : Nat) : UsageVal
deriving DecidableEq

/-- Python truthiness of the usage attribute: absent or None is falsy;
a CompletionUsage object is truthy; the rewritten dict always has six
keys, hence is truthy. -/
def usageTruthy : UsageVal → Bool
  | .missing => false
  | .tokenObj _ _ _ => true
  | .tokenDict _ _ _ _ _ _ => true

/-- Python `getattr(usage, p, 0)` where p names prompt_tokens: on the
CompletionUsage object the attribute exists; on the plain dict the
token names are keys, not attributes, so the default 0 is returned. -/
def getattrPrompt : UsageVal → Nat
  | .tokenObj p _ _ => p
  | _ => 0

/-- Python `getattr(usage, c, 0)` where c names completion_tokens. -/
def getattrCompletion : UsageVal → Nat
  | .tokenObj _ c _ => c
  | _ => 0

/-- Python `getattr(usage, t, 0)` where t names total_tokens. -/
def getattrTotal : UsageVal → Nat
  | .tokenObj _ _ t => t
  | _ => 0

/-- Lines 250-260: when the usage attribute is present and truthy,
replace it by the fixed-shape dict built from `getattr` lookups with
default 0 and three zeroed extra fields. -/
def rewriteUsage (u : UsageVal) : UsageVal :=
  if usageTruthy u then
    .tokenDict (getattrPrompt u) (getattrCompletion u) (getattrTotal u) 0 0 0
  else u

/-- A response as the clean `create` path sees it: choices plus the
usage attribute. -/
structure NormResponse where
  choices : List Choice
  usage : UsageVal

/-- The whole normalization done by the clean
`CompletionsInterceptor.create` on a response: the interceptor's
`_transform_choices` pass followed by the usage rewrite. -/
def createNormalize (r : NormResponse) : NormResponse :=
  ⟨transformChoicesClean r.choices, rewriteUsage r.usage⟩

/-! ## The ainvoke pipeline (CompletionsInterceptor.ainvoke,
ai_smoke_test.py lines 204-372) -/

/-- Lines 276-307: markdown extraction and the JSON pre-check.  A
json-tagged fence needs its exact first and last line; a plain fence
only the stripped text's delimiters.  The de-fenced text replaces
`content` only when it decodes as JSON. -/
def cleanContent (content : List Char) : List Char :=
  let t := pyStrip content
  let jsonContent :=
    if startsWithL fenceJsonTag t then
      if (match (splitNL t).head? with
          | some l0 => pyStrip l0 == fenceJsonTag
          | none => false)
         && (match (splitNL t).getLast? with
          | some ln => pyStrip ln == fenceTag
          | none => false) then
        joinNL (((splitNL t).drop 1).dropLast)
      else content
    else if startsWithL fenceTag t && endsWithL fenceTag t then
      joinNL (((splitNL t).drop 1).dropLast)
    else content
  match pyJsonLoads jsonContent with
  | .ok _ => jsonContent
  | .error _ => content

/-- The substitute action used when the validated content does not
decode as JSON (line 347). -/
def errorFallbackAction : Json :=
  .obj [(actionKey, .str "error".data), (paramsKey, .obj [])]

/-- Lines 332-358: run the coordinator on the (cleaned) content; a
raised `ValueError` is caught and the content kept; the returned
action is the decode of the validated content, or the substitute. -/
def ainvokeValidateStage (content : List Char)
    (call1 call2 : Except (List Char) (List Char)) : List Char × Json :=
  let validated :=
    match (validate_and_retry_llm_response content call1 call2).1 with
    | .success t _ => t
    | .exhausted _ _ => content
  let parsed :=
    match pyJsonLoads validated with
    | .ok j => j
    | .error _ => errorFallbackAction
  (validated, parsed)

/-- The processing `ainvoke` applies to the initial response content:
markdown cleanup, then validation with retries. -/
def ainvokeProcess (content : List Char)
    (call1 call2 : Except (List Char) (List Char)) : List Char × Json :=
  ainvokeValidateStage (cleanContent content) call1 call2

/-- The whole of `ainvoke` from the initial model call on: an
exception raised by that call is re-raised by the handler at lines
369-372; otherwise the pipeline runs and a response object is
returned. -/
def ainvokeModel (initialCall call1 call2 : Except (List Char) (List Char)) :
    Except (List Char) (List Char × Json) :=
  match initialCall with
  | .error e => .error e
  | .ok content => .ok (ainvokeProcess content call1 call2)

/-! ## FixedOpenAIWrapper.ainvoke action extraction
(ai_smoke_test_fixed.py lines 59-74) -/

/-- The action attached by FixedOpenAIWrapper: when the content has
both braces, decode the slice from the first left brace up to the
character after the last right brace, falling back to the click action
on a decode error (or when braces are absent). -/
def fixedExtractAction (content : List Char) : Json :=
  if lbrace ∈ content ∧ rbrace ∈ content then
    match findIdxC lbrace content, rfindIdxC rbrace content with
    | some s, some e =>
      match pyJsonLoads ((content.drop s).take (e + 1 - s)) with
      | .ok a => a
      | .error _ => fallbackClickAction
    | _, _ => fallbackClickAction
  else fallbackClickAction

/-! ## Polling waits (start_single_player_test.py lines 101-121 and
160-171)

Wall-clock time is modelled by the rational-valued reading `timeAt i`
taken at the i-th loop-head test; the 0.2-second sleep between checks
means consecutive readings are at least 1/5 apart.  The loop is given
explicit fuel; termination is the statement that some fuel suffices. -/

/-- One polling loop: while the clock reads below the deadline, test
the condition, return on success, sleep and repeat; once the deadline
has passed, raise TimeoutError (the `.error` outcome). -/
def waitPollLoop (checkAt : Nat → Bool) (timeAt : Nat → ℚ) (deadline : ℚ) :
    Nat → Nat → Option (Except Unit Nat)
  | 0, _ => none
  | fuel + 1, i =>
    if timeAt i < deadline then
      if checkAt i then some (.ok i)
      else waitPollLoop checkAt timeAt deadline fuel (i + 1)
    else some (.error ())

/-- The fixed sleep between checks, 0.2 seconds. -/
def sleepStep : ℚ := 1 / 5

/-- The default timeout of both waits, 10.0 seconds. -/
def defaultTimeout : ℚ := 10

/-- `_wait_for_selector`: the readiness of the selector at each poll
is the collaborator-supplied `ready`; the wait returns unit on
success. -/
def wait_for_selector (ready : Nat → Bool) (timeAt : Nat → ℚ) (timeout : ℚ)
    (fuel : Nat) : Option (Except Unit Unit) :=
  (waitPollLoop ready timeAt (timeAt 0 + timeout) fuel 0).map (fun r => r.map (fun _ => ()))

/-- `_wait_for_path`: poll the current URL; succeed when its path (the
collaborator-supplied `pathOf`, modelling urlparse) starts with the
given prefix, returning that URL. -/
def wait_for_path (urls : Nat → Option (List Char)) (pathOf : List Char → List Char)
    (pre : List Char) (timeAt : Nat → ℚ) (timeout : ℚ) (fuel : Nat) :
    Option (Except Unit (List Char)) :=
  match waitPollLoop
      (fun i => match urls i with
        | some u => startsWithL pre (pathOf u)
        | none => false)
      timeAt (timeAt 0 + timeout) fuel 0 with
  | none => none
  | some (.ok i) => some (.ok ((urls i).getD []))
  | some (.error ()) => some (.error ())

/-! ## Claim-side descriptions

The claims describe the brace step as taking the substring from the
first left brace to the last right brace.  The following definitions
spell that description out directly, without index arithmetic; the
bridge to the index-based source translation is proved below. -/

/-- The predicate selecting characters other than `c`. -/
def notChar (c : Char) (a : Char) : Bool := !(a == c)

/-- The suffix of `s` starting at the first occurrence of `c`
(empty when `c` does not occur). -/
def afterFirst (c : Char) (s : List Char) : List Char := s.dropWhile (notChar c)

/-- The prefix of `s` ending at the last occurrence of `c`
(empty when `c` does not occur). -/
def upToLast (c : Char) (s : List Char) : List Char :=
  (s.reverse.dropWhile (notChar c)).reverse

/-- `parse_action` as claim C1 words it: trim, de-fence, take the
substring from the first left brace to the last right brace (failing
with no-json when there is no left brace or no right brace after it),
decode (failing with bad-json and the diagnostic), then require the
action key (else no-action) and the params key (else no-params). -/
def parse_action_claim (rawText : List Char) : Except ParseFailure Json :=
  let content := deFence (pyStrip rawText)
  let u := afterFirst lbrace content
  if rbrace ∈ u.drop 1 then
    match pyJsonLoads (upToLast rbrace u) with
    | .error e => .error (.badJson e)
    | .ok obj =>
      if hasKey obj actionKey then
        if hasKey obj paramsKey then .ok obj else .error .noParams
      else .error .noAction
  else .error .noJson

end SmokeTest

namespace SmokeTest

/-! # Theorems

## List lemmas for the brace-extraction bridge -/

theorem dropWhile_all {p : Char → Bool} {s : List Char}
    (h : ∀ a ∈ s, p a = true) : s.dropWhile p = [] := by
  induction s with
  | nil => rfl
  | cons a t ih =>
    rw [List.dropWhile_cons, if_pos (h a (List.mem_cons_self a t))]
    exact ih fun b hb => h b (List.mem_cons_of_mem a hb)

theorem dropWhile_append_all {p : Char → Bool} {x : List Char} (y : List Char)
    (h : ∀ a ∈ x, p a = true) : (x ++ y).dropWhile p = y.dropWhile p := by
  rw [List.dropWhile_append, dropWhile_all h]
  rfl

theorem dropWhile_append_ne_nil {p : Char → Bool} {x : List Char} (y : List Char)
    (h : x.dropWhile p ≠ []) : (x ++ y).dropWhile p = x.dropWhile p ++ y := by
  rw [List.dropWhile_append, if_neg]
  simpa [List.isEmpty_iff] using h

theorem dropWhile_dropWhile {p q : Char → Bool} {s : List Char}
    (h : ∀ a, q a = true → p a = true) :
    (s.dropWhile q).dropWhile p = s.dropWhile p := by
  induction s with
  | nil => rfl
  | cons a t ih =>
    by_cases hq : q a = true
    · rw [List.dropWhile_cons, if_pos hq, ih, List.dropWhile_cons, if_pos (h a hq)]
    · rw [List.dropWhile_cons, if_neg hq]

theorem afterFirst_eq_nil_iff (c : Char) (s : List Char) :
    afterFirst c s = [] ↔ c ∉ s := by
  induction s with
  | nil => simp [afterFirst]
  | cons a t ih =>
    by_cases hac : a = c
    · subst hac
      simp [afterFirst, List.dropWhile_cons, notChar]
    · rw [afterFirst, List.dropWhile_cons, if_pos (by simp [notChar, hac])]
      rw [show List.dropWhile (notChar c) t = afterFirst c t from rfl, ih]
      constructor
      · intro h hm
        rcases List.mem_cons.mp hm with h1 | h2
        · exact hac h1.symm
        · exact h h2
      · exact fun h hm => h (List.mem_cons_of_mem a hm)

theorem head_afterFirst {c : Char} {s : List Char} {a : Char} {t : List Char}
    (h : afterFirst c s = a :: t) : a = c := by
  induction s with
  | nil => exact absurd h (by simp [afterFirst])
  | cons b s' ih =>
    by_cases hbc : b = c
    · subst hbc
      rw [afterFirst, List.dropWhile_cons, if_neg (by simp [notChar])] at h
      exact (List.cons.injEq b s' a t ▸ h).1.symm
    · rw [afterFirst, List.dropWhile_cons, if_pos (by simp [notChar, hbc])] at h
      exact ih h

theorem findIdxC_eq_none_iff (c : Char) (s : List Char) :
    findIdxC c s = none ↔ c ∉ s := by
  induction s with
  | nil => simp [findIdxC]
  | cons a t ih =>
    by_cases hac : a = c
    · subst hac
      simp [findIdxC]
    · rw [findIdxC, if_neg hac, Option.map_eq_none', ih]
      constructor
      · intro h hm
        rcases List.mem_cons.mp hm with h1 | h2
        · exact hac h1.symm
        · exact h h2
      · exact fun h hm => h (List.mem_cons_of_mem a hm)

theorem findIdxC_lt_length {c : Char} {s : List Char} {i : Nat}
    (h : findIdxC c s = some i) : i < s.length := by
  induction s generalizing i with
  | nil => exact absurd h (by simp [findIdxC])
  | cons a t ih =>
    by_cases hac : a = c
    · rw [findIdxC, if_pos hac] at h
      cases h
      simp
    · rw [findIdxC, if_neg hac, Option.map_eq_some'] at h
      obtain ⟨j, hj, rfl⟩ := h
      exact Nat.succ_lt_succ (ih hj)

theorem findIdxC_drop {c : Char} {s : List Char} {i : Nat}
    (h : findIdxC c s = some i) : s.drop i = afterFirst c s := by
  induction s generalizing i with
  | nil => exact absurd h (by simp [findIdxC])
  | cons a t ih =>
    by_cases hac : a = c
    · rw [findIdxC, if_pos hac] at h
      cases h
      rw [afterFirst, List.dropWhile_cons, if_neg (by simp [notChar, hac])]
      rfl
    · rw [findIdxC, if_neg hac, Option.map_eq_some'] at h
      obtain ⟨j, hj, rfl⟩ := h
      rw [afterFirst, List.dropWhile_cons, if_pos (by simp [notChar, hac])]
      exact ih hj

theorem findIdxC_append_some {c : Char} {x : List Char} (y : List Char) {i : Nat}
    (h : findIdxC c x = some i) : findIdxC c (x ++ y) = some i := by
  induction x generalizing i with
  | nil => exact absurd h (by simp [findIdxC])
  | cons a t ih =>
    by_cases hac : a = c
    · rw [findIdxC, if_pos hac] at h
      cases h
      rw [List.cons_append, findIdxC, if_pos hac]
    · rw [findIdxC, if_neg hac, Option.map_eq_some'] at h
      obtain ⟨j, hj, rfl⟩ := h
      rw [List.cons_append, findIdxC, if_neg hac, ih hj]
      rfl

theorem findIdxC_append_not_mem {c : Char} {x : List Char} (y : List Char)
    (h : c ∉ x) : findIdxC c (x ++ y) = (findIdxC c y).map (· + x.length) := by
  induction x with
  | nil =>
    cases hy : findIdxC c y <;> simp [hy]
  | cons a t ih =>
    have hac : a ≠ c := fun hh => h (hh ▸ List.mem_cons_self a t)
    rw [List.cons_append, findIdxC, if_neg hac,
      ih fun hm => h (List.mem_cons_of_mem a hm)]
    cases hy : findIdxC c y <;> simp [hy, Nat.add_assoc, Nat.add_comm 1 t.length]

/-- Bridge between the index-based slice of the source and the
first-brace-to-last-brace description of the claims. -/
theorem extractBraces_eq (content : List Char) :
    extractBraces content =
      (if rbrace ∈ (afterFirst lbrace content).drop 1 then
        some (upToLast rbrace (afterFirst lbrace content))
      else none) := by
  have hAc : content.takeWhile (notChar lbrace) ++ afterFirst lbrace content = content :=
    List.takeWhile_append_dropWhile (notChar lbrace) content
  set A := content.takeWhile (notChar lbrace) with hA
  have hAnot : lbrace ∉ A := by
    intro hmem
    have := List.mem_takeWhile_imp (hA ▸ hmem)
    simp [notChar] at this
  cases hu : afterFirst lbrace content with
  | nil =>
    have hnm : lbrace ∉ content := (afterFirst_eq_nil_iff lbrace content).mp hu
    have hf : findIdxC lbrace content = none := (findIdxC_eq_none_iff lbrace content).mpr hnm
    unfold extractBraces
    rw [hf]
    simp
  | cons lb u' =>
    have hlb : lb = lbrace := head_afterFirst hu
    subst hlb
    have hcontent : content = A ++ lbrace :: u' := by rw [← hAc, hu]
    have hfind : findIdxC lbrace content = some A.length := by
      rw [hcontent, findIdxC_append_not_mem _ hAnot, findIdxC, if_pos rfl]
      simp
    by_cases hm : rbrace ∈ u'
    · -- the last right brace lies after the first left brace
      set W := u'.reverse.takeWhile (notChar rbrace) with hW
      cases hD : u'.reverse.dropWhile (notChar rbrace) with
      | nil =>
        exact absurd ((afterFirst_eq_nil_iff rbrace u'.reverse).mp hD)
          (by simpa [List.mem_reverse] using hm)
      | cons rb Z =>
        have hrb : rb = rbrace := head_afterFirst hD
        subst hrb
        have hurev : u'.reverse = W ++ rbrace :: Z := by
          rw [hW, ← hD]
          exact (List.takeWhile_append_dropWhile (notChar rbrace) u'.reverse).symm
        have hWall : ∀ a ∈ W, notChar rbrace a = true := by
          intro a ha
          exact List.mem_takeWhile_imp (hW ▸ ha)
        have hWnot : rbrace ∉ W := by
          intro hmm
          have := hWall rbrace hmm
          simp [notChar] at this
        have hcrev : content.reverse = W ++ (rbrace :: (Z ++ (lbrace :: A.reverse))) := by
          rw [hcontent]
          simp [List.reverse_append, hurev, List.append_assoc]
        have hfindr : findIdxC rbrace content.reverse = some W.length := by
          rw [hcrev, findIdxC_append_not_mem _ hWnot, findIdxC, if_pos rfl]
          simp
        have hrfind : rfindIdxC rbrace content = some (content.length - 1 - W.length) := by
          rw [rfindIdxC, hfindr]
          rfl
        have hlu : u'.length = W.length + 1 + Z.length := by
          have h1 := congrArg List.length hurev
          simp [List.length_reverse, List.length_append] at h1
          omega
        have hlc : content.length = A.length + 1 + u'.length := by
          rw [hcontent]
          simp [List.length_append]
          omega
        have he : content.length - 1 - W.length = A.length + Z.length + 1 := by omega
        have harith : A.length + Z.length + 1 + 1 - A.length = Z.length + 2 := by omega
        have hdrop : content.drop A.length = lbrace :: u' := by
          rw [hcontent]
          exact List.drop_left A (lbrace :: u')
        have hu' : u' = (Z.reverse ++ [rbrace]) ++ W.reverse := by
          have h2 := congrArg List.reverse hurev
          simpa [List.reverse_append, List.append_assoc] using h2
        have hlen1 : (Z.reverse ++ [rbrace]).length = Z.length + 1 := by simp
        have htake : u'.take (Z.length + 1) = Z.reverse ++ [rbrace] := by
          conv_lhs => rw [hu', ← hlen1]
          exact List.take_left (Z.reverse ++ [rbrace]) W.reverse
        rw [if_pos (show rbrace ∈ (lbrace :: u').drop 1 by simpa using hm)]
        unfold extractBraces
        rw [hfind, hrfind, he]
        show (if A.length < A.length + Z.length + 1 then
            some (List.take (A.length + Z.length + 1 + 1 - A.length) (List.drop A.length content))
          else none) = some (upToLast rbrace (lbrace :: u'))
        rw [if_pos (by omega), harith, hdrop]
        congr 1
        rw [show Z.length + 2 = (Z.length + 1) + 1 from rfl, List.take_succ_cons, htake]
        rw [upToLast]
        have hrev2 : (lbrace :: u').reverse = W ++ (rbrace :: (Z ++ [lbrace])) := by
          simp [List.reverse_cons, hurev, List.append_assoc]
        rw [hrev2, dropWhile_append_all _ hWall, List.dropWhile_cons,
          if_neg (by simp [notChar])]
        simp [List.reverse_cons, List.reverse_append, List.append_assoc]
    · -- no right brace after the first left brace
      rw [if_neg (show ¬ rbrace ∈ (lbrace :: u').drop 1 by simpa using hm)]
      have hcrev : content.reverse = u'.reverse ++ (lbrace :: A.reverse) := by
        rw [hcontent]
        simp [List.reverse_append]
      have hnotrev : rbrace ∉ u'.reverse := by simpa [List.mem_reverse] using hm
      have hlbne : lbrace ≠ rbrace := by decide
      cases hAr : findIdxC rbrace A.reverse with
      | none =>
        have hfr : findIdxC rbrace content.reverse = none := by
          rw [hcrev, findIdxC_append_not_mem _ hnotrev, findIdxC, if_neg hlbne, hAr]
          rfl
        have hrfind : rfindIdxC rbrace content = none := by
          rw [rfindIdxC, hfr]
          rfl
        unfold extractBraces
        rw [hfind, hrfind]
      | some j =>
        have hjlt : j < A.length := by
          have := findIdxC_lt_length hAr
          simpa [List.length_reverse] using this
        have hfr : findIdxC rbrace content.reverse = some (j + 1 + u'.length) := by
          rw [hcrev, findIdxC_append_not_mem _ hnotrev, findIdxC, if_neg hlbne, hAr]
          simp [List.length_reverse]
        have hrfind : rfindIdxC rbrace content =
            some (content.length - 1 - (j + 1 + u'.length)) := by
          rw [rfindIdxC, hfr]
          rfl
        have hlc : content.length = A.length + 1 + u'.length := by
          rw [hcontent]
          simp [List.length_append]
          omega
        unfold extractBraces
        rw [hfind, hrfind]
        show (if A.length < content.length - 1 - (j + 1 + u'.length) then
            some (List.take (content.length - 1 - (j + 1 + u'.length) + 1 - A.length)
              (List.drop A.length content))
          else none) = none
        rw [if_neg (by omega)]

theorem pySpace_ne_lbrace : ∀ a, pySpace a = true → notChar lbrace a = true := by
  intro a h
  by_contra hn
  have : a = lbrace := by
    simpa [notChar] using hn
  subst this
  exact absurd h (by decide)

theorem pySpace_ne_rbrace : ∀ a, pySpace a = true → notChar rbrace a = true := by
  intro a h
  by_contra hn
  have : a = rbrace := by
    simpa [notChar] using hn
  subst this
  exact absurd h (by decide)

/-- Surrounding whitespace does not change the brace slice: the
whitespace characters removed by `strip` are neither left nor right
braces, so first brace, last brace and the text between them
survive. -/
theorem extractBraces_pyStrip (s : List Char) :
    extractBraces (pyStrip s) = extractBraces s := by
  rw [extractBraces_eq, extractBraces_eq]
  set x := lstrip s with hx
  have hps : pyStrip s = rstrip x := by rw [pyStrip, ← hx]
  have hafx : afterFirst lbrace x = afterFirst lbrace s := by
    rw [hx, afterFirst, afterFirst, lstrip]
    exact dropWhile_dropWhile pySpace_ne_lbrace
  have hsp : ∀ a ∈ (x.reverse.takeWhile pySpace).reverse, pySpace a = true := by
    intro a ha
    exact List.mem_takeWhile_imp (List.mem_reverse.mp ha)
  have hsplit : x = rstrip x ++ (x.reverse.takeWhile pySpace).reverse := by
    have h0 : x.reverse.takeWhile pySpace ++ x.reverse.dropWhile pySpace = x.reverse :=
      List.takeWhile_append_dropWhile pySpace x.reverse
    have h1 := congrArg List.reverse h0
    rw [List.reverse_reverse, List.reverse_append] at h1
    exact h1.symm
  set sp := (x.reverse.takeWhile pySpace).reverse with hspdef
  rw [hps]
  by_cases hmem : lbrace ∈ rstrip x
  · have hne : afterFirst lbrace (rstrip x) ≠ [] := by
      rw [Ne, afterFirst_eq_nil_iff]
      simpa using hmem
    have happ : afterFirst lbrace x = afterFirst lbrace (rstrip x) ++ sp := by
      conv_lhs => rw [hsplit]
      exact dropWhile_append_ne_nil sp hne
    cases hv : afterFirst lbrace (rstrip x) with
    | nil => exact absurd hv hne
    | cons c v' =>
      have hsprb : rbrace ∉ sp := by
        intro hin
        have h2 := hsp rbrace hin
        exact absurd h2 (by decide)
      have hcond : rbrace ∈ (afterFirst lbrace s).drop 1 ↔ rbrace ∈ v' := by
        rw [← hafx, happ, hv]
        constructor
        · intro h3
          rcases List.mem_append.mp (by simpa using h3) with h4 | h4
          · exact h4
          · exact absurd h4 hsprb
        · intro h3
          simpa using List.mem_append.mpr (Or.inl h3)
      have hval : upToLast rbrace (afterFirst lbrace s) =
          upToLast rbrace (afterFirst lbrace (rstrip x)) := by
        rw [← hafx, happ, upToLast, upToLast, List.reverse_append,
          dropWhile_append_all _ (fun a ha =>
            pySpace_ne_rbrace a (hsp a (List.mem_reverse.mp ha)))]
      by_cases hc : rbrace ∈ v'
      · rw [if_pos (by simpa using hc), if_pos (hcond.mpr hc), hval, hv]
      · rw [if_neg (by simpa using hc), if_neg (fun h3 => hc (hcond.mp h3))]
  · have hv1 : afterFirst lbrace (rstrip x) = [] :=
      (afterFirst_eq_nil_iff lbrace (rstrip x)).mpr hmem
    have hmem2 : lbrace ∉ x := by
      rw [hsplit]
      intro h3
      rcases List.mem_append.mp h3 with h4 | h4
      · exact hmem h4
      · have h5 := hsp lbrace h4
        exact absurd h5 (by decide)
    have hv2 : afterFirst lbrace s = [] := by
      rw [← hafx]
      exact (afterFirst_eq_nil_iff lbrace x).mpr hmem2
    rw [hv1, hv2]

/-! ## Claim C1 -/

/-- C1: `parse_action` applies its checks in the claimed order: trim
the text, strip the first and last line of a triple-backtick fence
(json-tagged or not), take the substring from the first left brace to
the last right brace — failing with no-json when there is no left
brace or no right brace after it — then decode that substring (failing
with bad-json carrying the decoder diagnostic), then require the
action key (else no-action) and the params key (else no-params),
returning the decoded object otherwise.  Stated as: `parse_action`
equals the function written from the claim's wording. -/
theorem claim_C1_parse_action_order (rawText : List Char) :
    parse_action rawText = parse_action_claim rawText := by
  simp only [parse_action, parse_action_claim]
  rw [extractBraces_eq]
  by_cases h : rbrace ∈ (afterFirst lbrace (deFence (pyStrip rawText))).drop 1
  · rw [if_pos h, if_pos h]
  · rw [if_neg h, if_neg h]

/-! ## Claim C6 -/

/-- C6 counterexample: a doubly fenced input.  The outer fence is
stripped once, so `parse_action` slices the inner fence text and fails
with bad-json; applied to the fence interior directly, another fence
strip happens first and it fails with no-json.  The claim's assertion
that the two runs return the same failure tag is false here. -/
theorem claim_C6_counterexample :
    isFenced (pyStrip ("```\n```\x7b\nx\n\x7d```\n```".data)) = true
    ∧ stripFenceLines (pyStrip ("```\n```\x7b\nx\n\x7d```\n```".data))
      = "```\x7b\nx\n\x7d```".data
    ∧ parse_action ("```\n```\x7b\nx\n\x7d```\n```".data)
      = .error (.badJson "Expecting property name enclosed in double quotes".data)
    ∧ parse_action ("```\x7b\nx\n\x7d```".data) = .error .noJson
    ∧ ParseFailure.badJson "Expecting property name enclosed in double quotes".data
      ≠ ParseFailure.noJson :=
  ⟨rfl, rfl, rfl, rfl, by decide⟩

/-- C6 amended: for raw text whose trimmed form is fence-wrapped,
`parse_action` agrees with `parse_action` on the fence interior,
provided the interior's own trimmed form is not again fence-wrapped
(a doubly fenced input is de-fenced once on the first run and twice on
the second, as the counterexample shows). -/
theorem claim_C6_fence_equiv (raw : List Char)
    (h1 : isFenced (pyStrip raw) = true)
    (h2 : isFenced (pyStrip (stripFenceLines (pyStrip raw))) = false) :
    parse_action raw = parse_action (stripFenceLines (pyStrip raw)) := by
  have hL : deFence (pyStrip raw) = stripFenceLines (pyStrip raw) := by
    have h1' := h1
    rw [isFenced, Bool.or_eq_true] at h1'
    rcases h1' with ha | hb
    · rw [deFence, if_pos ha]
    · by_cases ha : (startsWithL fenceJsonTag (pyStrip raw)
          && endsWithL fenceTag (pyStrip raw)) = true
      · rw [deFence, if_pos ha]
      · rw [deFence, if_neg ha, if_pos hb]
  have hR : deFence (pyStrip (stripFenceLines (pyStrip raw)))
      = pyStrip (stripFenceLines (pyStrip raw)) := by
    have h2' : ¬ (isFenced (pyStrip (stripFenceLines (pyStrip raw))) = true) := by
      simp [h2]
    rw [isFenced, Bool.or_eq_true] at h2'
    push_neg at h2'
    rw [deFence, if_neg h2'.1, if_neg h2'.2]
  simp only [parse_action]
  rw [hL, hR, extractBraces_pyStrip]

/-- C6 witness: a json-tagged fenced action parses identically to its
interior. -/
theorem claim_C6_witness :
    isFenced (pyStrip ("```json\n\x7b\"action\": \"goto\", \"params\": \x7b\x7d\x7d\n```".data)) = true
    ∧ isFenced (pyStrip (stripFenceLines
        (pyStrip ("```json\n\x7b\"action\": \"goto\", \"params\": \x7b\x7d\x7d\n```".data)))) = false
    ∧ parse_action ("```json\n\x7b\"action\": \"goto\", \"params\": \x7b\x7d\x7d\n```".data)
      = parse_action (stripFenceLines
          (pyStrip ("```json\n\x7b\"action\": \"goto\", \"params\": \x7b\x7d\x7d\n```".data))) :=
  ⟨rfl, rfl,
    claim_C6_fence_equiv ("```json\n\x7b\"action\": \"goto\", \"params\": \x7b\x7d\x7d\n```".data)
      rfl rfl⟩

/-! ## Claim C2 -/

/-- C2: the retry budget of the coordinator.  A parsing initial text
returns at once with zero corrective calls; a first corrective
response that parses returns after exactly one; a parsing third
attempt returns after exactly two; three parse failures raise the
terminal error after exactly two corrective calls; and no run ever
makes more than two corrective calls. -/
theorem claim_C2_retry_budget (raw c1 c2 : List Char) :
    (∀ obj, parse_action raw = .ok obj →
      ∀ k1 k2, validate_and_retry_llm_response raw k1 k2 = (.success raw obj, 0))
    ∧ (∀ e0 obj, parse_action raw = .error e0 → parse_action c1 = .ok obj →
      ∀ k2, validate_and_retry_llm_response raw (.ok c1) k2 = (.success c1 obj, 1))
    ∧ (∀ e0 e1 obj, parse_action raw = .error e0 → parse_action c1 = .error e1 →
      parse_action c2 = .ok obj →
      validate_and_retry_llm_response raw (.ok c1) (.ok c2) = (.success c2 obj, 2))
    ∧ (∀ e0 e1 e2, parse_action raw = .error e0 → parse_action c1 = .error e1 →
      parse_action c2 = .error e2 →
      validate_and_retry_llm_response raw (.ok c1) (.ok c2)
        = (.exhausted (renderFailure e2) raw, 2))
    ∧ (∀ k1 k2, (validate_and_retry_llm_response raw k1 k2).2 ≤ 2) := by
  refine ⟨?_, ?_, ?_, ?_, ?_⟩
  · intro obj h k1 k2
    simp [validate_and_retry_llm_response, h]
  · intro e0 obj h0 h1 k2
    simp [validate_and_retry_llm_response, h0, h1]
  · intro e0 e1 obj h0 h1 h2
    simp [validate_and_retry_llm_response, finalRetryStep, h0, h1, h2]
  · intro e0 e1 e2 h0 h1 h2
    simp [validate_and_retry_llm_response, finalRetryStep, h0, h1, h2]
  · intro k1 k2
    unfold validate_and_retry_llm_response
    cases h0 : parse_action raw with
    | ok _ => simp
    | error _ =>
      cases k1 with
      | ok rc =>
        cases h1 : parse_action rc with
        | ok _ => simp [h1]
        | error _ =>
          unfold finalRetryStep
          cases k2 with
          | ok fc => cases h2 : parse_action fc <;> simp [h1, h2]
          | error _ => simp [h1]
      | error _ =>
        unfold finalRetryStep
        cases k2 with
        | ok fc => cases h2 : parse_action fc <;> simp [h2]
        | error _ => simp

/-- C2 witness: the four budget clauses at concrete stubs, where the
good text holds a goto action and "nope" parses as no-json. -/
theorem claim_C2_witness :
    validate_and_retry_llm_response ("\x7b\"action\": \"goto\", \"params\": \x7b\x7d\x7d".data)
        (.ok "nope".data) (.ok "nope".data)
      = (.success ("\x7b\"action\": \"goto\", \"params\": \x7b\x7d\x7d".data)
          (Json.obj [(actionKey, Json.str "goto".data), (paramsKey, Json.obj [])]), 0)
    ∧ validate_and_retry_llm_response "nope".data
        (.ok ("\x7b\"action\": \"goto\", \"params\": \x7b\x7d\x7d".data)) (.ok "nope".data)
      = (.success ("\x7b\"action\": \"goto\", \"params\": \x7b\x7d\x7d".data)
          (Json.obj [(actionKey, Json.str "goto".data), (paramsKey, Json.obj [])]), 1)
    ∧ validate_and_retry_llm_response "nope".data (.ok "nope".data)
        (.ok ("\x7b\"action\": \"goto\", \"params\": \x7b\x7d\x7d".data))
      = (.success ("\x7b\"action\": \"goto\", \"params\": \x7b\x7d\x7d".data)
          (Json.obj [(actionKey, Json.str "goto".data), (paramsKey, Json.obj [])]), 2)
    ∧ validate_and_retry_llm_response "nope".data (.ok "nope".data) (.ok "nope".data)
      = (.exhausted (renderFailure .noJson) "nope".data, 2)
    ∧ (validate_and_retry_llm_response "nope".data (.ok "nope".data) (.ok "nope".data)).2 ≤ 2 := by
  refine ⟨?_, ?_, ?_, ?_, ?_⟩
  · exact (claim_C2_retry_budget ("\x7b\"action\": \"goto\", \"params\": \x7b\x7d\x7d".data)
      "nope".data "nope".data).1
      (Json.obj [(actionKey, Json.str "goto".data), (paramsKey, Json.obj [])]) rfl
      (.ok "nope".data) (.ok "nope".data)
  · exact (claim_C2_retry_budget "nope".data
      ("\x7b\"action\": \"goto\", \"params\": \x7b\x7d\x7d".data) "nope".data).2.1
      .noJson (Json.obj [(actionKey, Json.str "goto".data), (paramsKey, Json.obj [])])
      rfl rfl (.ok "nope".data)
  · exact (claim_C2_retry_budget "nope".data "nope".data
      ("\x7b\"action\": \"goto\", \"params\": \x7b\x7d\x7d".data)).2.2.1
      .noJson .noJson (Json.obj [(actionKey, Json.str "goto".data), (paramsKey, Json.obj [])])
      rfl rfl rfl
  · exact (claim_C2_retry_budget "nope".data "nope".data "nope".data).2.2.2.1
      .noJson .noJson .noJson rfl rfl rfl
  · exact (claim_C2_retry_budget "nope".data "nope".data "nope".data).2.2.2.2
      (.ok "nope".data) (.ok "nope".data)

/-! ## Claim C3 -/

/-- C3 counterexample: three distinct parse-failing texts.  The
terminal error carries the raw text of the initial attempt, "alpha",
not that of the last attempt, "gamma". -/
theorem claim_C3_counterexample :
    (validate_and_retry_llm_response "alpha".data (.ok "beta".data) (.ok "gamma".data)).1
      = VOutcome.exhausted "no-json".data "alpha".data
    ∧ "alpha".data ≠ "gamma".data :=
  ⟨rfl, by decide⟩

/-- C3 amended: when all three attempts fail to parse, the terminal
error carries the parse-failure reason of the last attempt together
with the raw text of the initial attempt (the variable interpolated
into the message is `raw_content`, never reassigned). -/
theorem claim_C3_exhausted_payload (raw c1 c2 : List Char) (e0 e1 e2 : ParseFailure)
    (h0 : parse_action raw = .error e0) (h1 : parse_action c1 = .error e1)
    (h2 : parse_action c2 = .error e2) :
    (validate_and_retry_llm_response raw (.ok c1) (.ok c2)).1
      = .exhausted (renderFailure e2) raw := by
  simp [validate_and_retry_llm_response, finalRetryStep, h0, h1, h2]

/-- C3 witness: the amended payload at the alpha, beta, gamma stubs. -/
theorem claim_C3_witness :
    (validate_and_retry_llm_response "alpha".data (.ok "beta".data) (.ok "gamma".data)).1
      = .exhausted (renderFailure .noJson) "alpha".data :=
  claim_C3_exhausted_payload "alpha".data "beta".data "gamma".data
    .noJson .noJson .noJson rfl rfl rfl

/-! ## Claim C4 -/

/-- C4 counterexample: a transport exception on the first corrective
call is caught, and a second corrective call is still issued and its
result returned (two corrective calls were made).  The exception was
consumed to drive a further retry, contradicting immediate
propagation. -/
theorem claim_C4_counterexample :
    validate_and_retry_llm_response "alpha".data (.error "boom".data)
        (.ok ("\x7b\"action\": \"goto\", \"params\": \x7b\x7d\x7d".data))
      = (.success ("\x7b\"action\": \"goto\", \"params\": \x7b\x7d\x7d".data)
          (Json.obj [(actionKey, Json.str "goto".data), (paramsKey, Json.obj [])]), 2) :=
  rfl

/-- C4 amended: an exception raised by the initial model call is
re-raised by `ainvoke` itself; but an exception raised by either
corrective call inside the coordinator is caught there and consumed —
the run proceeds to the next attempt, or ends in the terminal
validation error carrying the current parse failure, and the transport
error is never propagated out of the coordinator. -/
theorem claim_C4_transport_errors (raw : List Char) (e0 : ParseFailure)
    (h0 : parse_action raw = .error e0) :
    (∀ e k1 k2, ainvokeModel (.error e) k1 k2 = .error e)
    ∧ (∀ t1 t2, validate_and_retry_llm_response raw (.error t1) (.error t2)
        = (.exhausted (renderFailure e0) raw, 2))
    ∧ (∀ t1 c2 obj, parse_action c2 = .ok obj →
        validate_and_retry_llm_response raw (.error t1) (.ok c2)
          = (.success c2 obj, 2)) := by
  refine ⟨?_, ?_, ?_⟩
  · intro e k1 k2
    rfl
  · intro t1 t2
    simp [validate_and_retry_llm_response, finalRetryStep, h0]
  · intro t1 c2 obj h2
    simp [validate_and_retry_llm_response, finalRetryStep, h0, h2]

/-- C4 witness: the three amended clauses at concrete stubs. -/
theorem claim_C4_witness :
    ainvokeModel (.error "down".data) (.ok "x".data) (.ok "x".data) = .error "down".data
    ∧ validate_and_retry_llm_response "alpha".data (.error "boom".data) (.error "boom".data)
      = (.exhausted (renderFailure .noJson) "alpha".data, 2)
    ∧ validate_and_retry_llm_response "alpha".data (.error "boom".data)
        (.ok ("\x7b\"action\": \"goto\", \"params\": \x7b\x7d\x7d".data))
      = (.success ("\x7b\"action\": \"goto\", \"params\": \x7b\x7d\x7d".data)
          (Json.obj [(actionKey, Json.str "goto".data), (paramsKey, Json.obj [])]), 2) :=
  ⟨(claim_C4_transport_errors "alpha".data .noJson rfl).1 "down".data
      (.ok "x".data) (.ok "x".data),
    (claim_C4_transport_errors "alpha".data .noJson rfl).2.1 "boom".data "boom".data,
    (claim_C4_transport_errors "alpha".data .noJson rfl).2.2 "boom".data
      ("\x7b\"action\": \"goto\", \"params\": \x7b\x7d\x7d".data)
      (Json.obj [(actionKey, Json.str "goto".data), (paramsKey, Json.obj [])]) rfl⟩

/-! ## Claim C5 -/

/-- C5 counterexample: in ai_smoke_test.py's `_transform_choices`, a
choice whose content has no JSON object gets no action attached at all
— the fallback the claim promises is never assigned in that variant. -/
theorem claim_C5_counterexample :
    transformChoiceMain (some "not json".data) = none
    ∧ (none : Option Json) ≠ some fallbackClickAction :=
  ⟨rfl, fun h => Option.noConfusion h⟩

/-- C5 amended: in the clean variant, every choice whose content is a
non-empty string gets an action attached without raising: exactly the
parsed object when the main-variant parse succeeds, and the configured
fallback click action when it fails; and the whole choice list is
always processed.  (In the ai_smoke_test.py variant a failing choice
is left without an action, as the counterexample shows; choices with
empty or missing content are skipped in both variants.) -/
theorem claim_C5_clean_fallback (s : List Char) (h : s ≠ []) :
    (transformChoiceMain (some s) = none →
      transformChoiceClean (some s) = some fallbackClickAction)
    ∧ (∀ p, transformChoiceMain (some s) = some p →
      transformChoiceClean (some s) = some p)
    ∧ (∀ chs : List Choice, (transformChoicesClean chs).length = chs.length) := by
  have hne : s.isEmpty = false := by
    cases s with
    | nil => exact absurd rfl h
    | cons a t => rfl
  refine ⟨?_, ?_, ?_⟩
  · intro hm
    simp only [transformChoiceMain, hne] at hm
    simp only [transformChoiceClean, hne]
    norm_num at hm ⊢
    cases hE : extractBraces (deFence (pyStrip s)) with
    | none => simp [hE]
    | some sub =>
      simp only [hE] at hm ⊢
      cases hL : pyJsonLoads sub with
      | error d => simp [hL]
      | ok parsed =>
        simp only [hL] at hm ⊢
        by_cases hk : hasKey parsed actionKey = true
        · simp [hk] at hm
        · simp [hk]
  · intro p hm
    simp only [transformChoiceMain, hne] at hm
    simp only [transformChoiceClean, hne]
    norm_num at hm ⊢
    cases hE : extractBraces (deFence (pyStrip s)) with
    | none => simp [hE] at hm
    | some sub =>
      simp only [hE] at hm ⊢
      cases hL : pyJsonLoads sub with
      | error d => simp [hL] at hm
      | ok parsed =>
        simp only [hL] at hm ⊢
        by_cases hk : hasKey parsed actionKey = true
        · simp only [hk, if_true] at hm ⊢
          exact hm
        · simp [hk] at hm
  · intro chs
    exact List.length_map chs updateChoiceClean

/-- C5 witness: a parse-failing non-empty content receives the
fallback click action in the clean variant, and a one-choice list is
fully processed. -/
theorem claim_C5_witness :
    transformChoiceClean (some "not json".data) = some fallbackClickAction
    ∧ (transformChoicesClean [(some "not json".data, none)]).length = 1 :=
  ⟨(claim_C5_clean_fallback "not json".data (by decide)).1 rfl,
   (claim_C5_clean_fallback "not json".data (by decide)).2.2
     [(some "not json".data, none)]⟩

/-! ## Claim C7 -/

/-- C7 counterexample: `parse_action` accepts an action whose value is
the empty string (and a params value that is not a mapping); the keys
are only tested for presence, never for a non-empty string value. -/
theorem claim_C7_counterexample :
    parse_action ("\x7b\"action\": \"\", \"params\": 0\x7d".data)
      = .ok (Json.obj [(actionKey, Json.str []), (paramsKey, Json.num "0".data)])
    ∧ lookupKey (Json.obj [(actionKey, Json.str []), (paramsKey, Json.num "0".data)])
        actionKey = some (Json.str []) :=
  ⟨rfl, rfl⟩

/-- C7 amended: every Action returned by `parse_action` contains both
the action key and the params key, with unconstrained values (possibly
an empty or non-string action value); the action attached by either
`_transform_choices` variant always contains the action key but not
necessarily params; FixedOpenAIWrapper attaches either the decoded
brace slice unchecked or its fallback, and the fallback carries both
keys. -/
theorem claim_C7_action_key_presence :
    (∀ raw obj, parse_action raw = .ok obj →
      hasKey obj actionKey = true ∧ hasKey obj paramsKey = true)
    ∧ (∀ content p, transformChoiceMain content = some p → hasKey p actionKey = true)
    ∧ (∀ content p, transformChoiceClean content = some p → hasKey p actionKey = true)
    ∧ (∀ content, fixedExtractAction content = fallbackClickAction
        ∨ ∃ s e, findIdxC lbrace content = some s ∧ rfindIdxC rbrace content = some e
          ∧ pyJsonLoads ((content.drop s).take (e + 1 - s))
            = .ok (fixedExtractAction content))
    ∧ hasKey fallbackClickAction actionKey = true
    ∧ hasKey fallbackClickAction paramsKey = true := by
  refine ⟨?_, ?_, ?_, ?_, rfl, rfl⟩
  · intro raw obj h
    simp only [parse_action] at h
    cases hE : extractBraces (deFence (pyStrip raw)) with
    | none => simp [hE] at h
    | some sub =>
      simp only [hE] at h
      cases hL : pyJsonLoads sub with
      | error d => simp [hL] at h
      | ok o =>
        simp only [hL] at h
        by_cases hk1 : hasKey o actionKey = true
        · by_cases hk2 : hasKey o paramsKey = true
          · simp only [hk1, hk2, if_true] at h
            cases h
            exact ⟨hk1, hk2⟩
          · simp [hk1, hk2] at h
        · simp [hk1] at h
  · intro content p h
    cases content with
    | none => simp [transformChoiceMain] at h
    | some s =>
      by_cases hne : s.isEmpty = true
      · simp [transformChoiceMain, hne] at h
      · simp only [transformChoiceMain, hne] at h
        norm_num at h
        cases hE : extractBraces (deFence (pyStrip s)) with
        | none => simp [hE] at h
        | some sub =>
          simp only [hE] at h
          cases hL : pyJsonLoads sub with
          | error d => simp [hL] at h
          | ok parsed =>
            simp only [hL] at h
            by_cases hk : hasKey parsed actionKey = true
            · simp only [hk, if_true] at h
              cases h
              exact hk
            · simp [hk] at h
  · intro content p h
    cases content with
    | none => simp [transformChoiceClean] at h
    | some s =>
      by_cases hne : s.isEmpty = true
      · simp [transformChoiceClean, hne] at h
      · simp only [transformChoiceClean, hne] at h
        norm_num at h
        cases hE : extractBraces (deFence (pyStrip s)) with
        | none =>
          simp only [hE] at h
          cases h
          rfl
        | some sub =>
          simp only [hE] at h
          cases hL : pyJsonLoads sub with
          | error d =>
            simp only [hL] at h
            cases h
            rfl
          | ok parsed =>
            simp only [hL] at h
            by_cases hk : hasKey parsed actionKey = true
            · simp only [hk, if_true] at h
              cases h
              exact hk
            · simp only [hk, if_false] at h
              cases h
              rfl
  · intro content
    by_cases hb : lbrace ∈ content ∧ rbrace ∈ content
    · cases hf : findIdxC lbrace content with
      | none => exact Or.inl (by simp [fixedExtractAction, hb, hf])
      | some s =>
        cases hr : rfindIdxC rbrace content with
        | none => exact Or.inl (by simp [fixedExtractAction, hb, hf, hr])
        | some e =>
          cases hL : pyJsonLoads ((content.drop s).take (e + 1 - s)) with
          | error d => exact Or.inl (by simp [fixedExtractAction, hb, hf, hr, hL])
          | ok a =>
            refine Or.inr ⟨s, e, rfl, rfl, ?_⟩
            simp [fixedExtractAction, hb, hf, hr, hL]
    · exact Or.inl (by simp [fixedExtractAction, hb])

/-- C7 witness: the parse_action clause at a goto action, and the
main-transformer clause at an object with an action key only. -/
theorem claim_C7_witness :
    (hasKey (Json.obj [(actionKey, Json.str "goto".data), (paramsKey, Json.obj [])])
        actionKey = true
      ∧ hasKey (Json.obj [(actionKey, Json.str "goto".data), (paramsKey, Json.obj [])])
        paramsKey = true)
    ∧ hasKey (Json.obj [(actionKey, Json.num "1".data)]) actionKey = true :=
  ⟨claim_C7_action_key_presence.1 ("\x7b\"action\": \"goto\", \"params\": \x7b\x7d\x7d".data)
      (Json.obj [(actionKey, Json.str "goto".data), (paramsKey, Json.obj [])]) rfl,
   claim_C7_action_key_presence.2.1 (some ("\x7b\"action\": 1\x7d".data))
      (Json.obj [(actionKey, Json.num "1".data)]) rfl⟩

/-! ## Claim C8 -/

/-- C8 counterexample: re-normalizing zeroes the token counts.  The
second pass fetches prompt, completion and total tokens with `getattr`
from a plain dict, where they are keys rather than attributes, so the
default 0 replaces the values 3, 5, 8 written by the first pass. -/
theorem claim_C8_counterexample :
    (createNormalize (createNormalize ⟨[], .tokenObj 3 5 8⟩)).usage
      = .tokenDict 0 0 0 0 0 0
    ∧ (createNormalize ⟨[], .tokenObj 3 5 8⟩).usage = .tokenDict 3 5 8 0 0 0
    ∧ (3 : Nat) ≠ 0 :=
  ⟨rfl, rfl, by decide⟩

/-- C8 amended: normalizing an already-normalized response leaves
every choice's action field unchanged (the transform recomputes the
same value from the unchanged content), but the usage rewrite is
re-applied and — because `getattr` finds no token attributes on the
plain dict — resets the prompt, completion and total token counts to
zero rather than keeping them. -/
theorem claim_C8_renormalize (r : NormResponse) :
    (createNormalize (createNormalize r)).choices = (createNormalize r).choices
    ∧ (∀ p c t a b d, rewriteUsage (.tokenDict p c t a b d) = .tokenDict 0 0 0 0 0 0) := by
  constructor
  · show transformChoicesClean (transformChoicesClean r.choices)
      = transformChoicesClean r.choices
    unfold transformChoicesClean
    rw [List.map_map]
    apply List.map_congr_left
    intro ch _
    show updateChoiceClean (updateChoiceClean ch) = updateChoiceClean ch
    unfold updateChoiceClean
    cases hc : transformChoiceClean ch.1 with
    | none => simp [hc]
    | some a => simp [hc]
  · intro p c t a b d
    rfl

/-! ## Claim C9 -/

theorem timeAt_lower_bound (timeAt : Nat → ℚ)
    (hstep : ∀ i, timeAt i + 1/5 ≤ timeAt (i+1)) :
    ∀ i : Nat, timeAt 0 + i * (1/5) ≤ timeAt i := by
  intro i
  induction i with
  | zero => simp
  | succ n ih =>
    have h1 := hstep n
    have h2 : timeAt 0 + (n + 1 : Nat) * (1/5) = (timeAt 0 + n * (1/5)) + 1/5 := by
      push_cast
      ring
    rw [h2]
    linarith

theorem timeAt_mono (timeAt : Nat → ℚ)
    (hstep : ∀ i, timeAt i + 1/5 ≤ timeAt (i+1)) :
    ∀ j m : Nat, j ≤ m → timeAt j ≤ timeAt m := by
  intro j m hjm
  obtain ⟨d, rfl⟩ := Nat.exists_eq_add_of_le hjm
  clear hjm
  induction d with
  | zero => simp
  | succ n ih =>
    have h1 := hstep (j + n)
    have h2 : j + (n + 1) = (j + n) + 1 := rfl
    rw [h2]
    linarith

theorem waitPollLoop_ne_none (checkAt : Nat → Bool) (timeAt : Nat → ℚ) (dl : ℚ)
    (N : Nat) (hN : ∀ i, N ≤ i → ¬ timeAt i < dl) :
    ∀ fuel i, N < fuel + i → 1 ≤ fuel →
      waitPollLoop checkAt timeAt dl fuel i ≠ none := by
  intro fuel
  induction fuel with
  | zero =>
    intro i _ h1
    omega
  | succ fuel ih =>
    intro i hfi _
    simp only [waitPollLoop]
    by_cases hg : timeAt i < dl
    · rw [if_pos hg]
      by_cases hc : checkAt i = true
      · simp [hc]
      · simp only [hc, if_false, Bool.false_eq_true]
        cases Nat.eq_zero_or_pos fuel with
        | inl h0 =>
          subst h0
          exact absurd hg (hN i (by omega))
        | inr h1 => exact ih (i + 1) (by omega) h1
    · rw [if_neg hg]
      simp

theorem waitPollLoop_ok_first (checkAt : Nat → Bool) (timeAt : Nat → ℚ) (dl : ℚ) :
    ∀ fuel i0 k, waitPollLoop checkAt timeAt dl fuel i0 = some (.ok k) →
      i0 ≤ k ∧ checkAt k = true ∧ timeAt k < dl
        ∧ ∀ j, i0 ≤ j → j < k → checkAt j = false := by
  intro fuel
  induction fuel with
  | zero =>
    intro i0 k h
    simp [waitPollLoop] at h
  | succ fuel ih =>
    intro i0 k h
    simp only [waitPollLoop] at h
    by_cases hg : timeAt i0 < dl
    · rw [if_pos hg] at h
      by_cases hc : checkAt i0 = true
      · simp only [hc, if_true] at h
        have hk : i0 = k := by simpa using h
        subst hk
        exact ⟨le_rfl, hc, hg, fun j hj1 hj2 => absurd (lt_of_le_of_lt hj1 hj2) (lt_irrefl i0)⟩
      · simp only [hc, if_false, Bool.false_eq_true] at h
        obtain ⟨h1, h2, h3, h4⟩ := ih (i0 + 1) k h
        refine ⟨by omega, h2, h3, ?_⟩
        intro j hj1 hj2
        rcases Nat.eq_or_lt_of_le hj1 with heq | hlt
        · rw [← heq]
          exact Bool.not_eq_true _ ▸ (by simpa using hc)
        · exact h4 j (by omega) hj2
    · rw [if_neg hg] at h
      simp at h

theorem waitPollLoop_error_deadline (checkAt : Nat → Bool) (timeAt : Nat → ℚ) (dl : ℚ) :
    ∀ fuel i0, waitPollLoop checkAt timeAt dl fuel i0 = some (.error ()) →
      ∃ m, i0 ≤ m ∧ ¬ timeAt m < dl ∧ ∀ j, i0 ≤ j → j < m → checkAt j = false := by
  intro fuel
  induction fuel with
  | zero =>
    intro i0 h
    simp [waitPollLoop] at h
  | succ fuel ih =>
    intro i0 h
    simp only [waitPollLoop] at h
    by_cases hg : timeAt i0 < dl
    · rw [if_pos hg] at h
      by_cases hc : checkAt i0 = true
      · simp [hc] at h
      · simp only [hc, if_false, Bool.false_eq_true] at h
        obtain ⟨m, h1, h2, h3⟩ := ih (i0 + 1) h
        refine ⟨m, by omega, h2, ?_⟩
        intro j hj1 hj2
        rcases Nat.eq_or_lt_of_le hj1 with heq | hlt
        · rw [← heq]
          simpa using hc
        · exact h3 j (by omega) hj2
    · rw [if_neg hg] at h
      exact ⟨i0, le_rfl, hg,
        fun j hj1 hj2 => absurd (lt_of_le_of_lt hj1 hj2) (lt_irrefl i0)⟩

/-- C9: every polling wait terminates.  With readings 0.2 seconds
apart, some fuel makes the loop return: the first index whose check
succeeds before the deadline when one exists, and the TimeoutError
outcome — never an unbounded run — once the deadline has passed; both
`wait_for_selector` and `wait_for_path` are instances of this loop and
return under the same hypotheses. -/
theorem claim_C9_wait_terminates (checkAt : Nat → Bool) (timeAt : Nat → ℚ) (t0 T : ℚ)
    (h0 : timeAt 0 = t0) (hstep : ∀ i, timeAt i + 1/5 ≤ timeAt (i+1)) :
    (∃ fuel res, waitPollLoop checkAt timeAt (t0 + T) fuel 0 = some res
      ∧ (∀ k, res = .ok k → checkAt k = true ∧ timeAt k < t0 + T
          ∧ ∀ j, j < k → checkAt j = false)
      ∧ (res = .error () → ∀ i, timeAt i < t0 + T → checkAt i = false))
    ∧ (∃ fuel r, wait_for_selector checkAt timeAt T fuel = some r)
    ∧ (∀ urls pathOf pre, ∃ fuel r,
        wait_for_path urls pathOf pre timeAt T fuel = some r) := by
  have hNdl : ∀ i, Nat.ceil (5 * T) ≤ i → ¬ timeAt i < t0 + T := by
    intro i hi
    have hlow := timeAt_lower_bound timeAt hstep i
    rw [h0] at hlow
    have h5 : (5 : ℚ) * T ≤ (Nat.ceil (5 * T) : ℚ) := Nat.le_ceil _
    have hic : (Nat.ceil (5 * T) : ℚ) ≤ (i : ℚ) := by exact_mod_cast hi
    rw [not_lt]
    linarith
  set N := Nat.ceil (5 * T) with hNdef
  have hterm : ∀ cb : Nat → Bool,
      ∃ res, waitPollLoop cb timeAt (t0 + T) (N + 1) 0 = some res := by
    intro cb
    have h1 := waitPollLoop_ne_none cb timeAt (t0 + T) N hNdl (N + 1) 0 (by omega) (by omega)
    cases hr : waitPollLoop cb timeAt (t0 + T) (N + 1) 0 with
    | none => exact absurd hr h1
    | some r => exact ⟨r, rfl⟩
  refine ⟨?_, ?_, ?_⟩
  · obtain ⟨res, hres⟩ := hterm checkAt
    refine ⟨N + 1, res, hres, ?_, ?_⟩
    · intro k hk
      have h4 := waitPollLoop_ok_first checkAt timeAt (t0 + T) (N + 1) 0 k (hk ▸ hres)
      exact ⟨h4.2.1, h4.2.2.1, fun j hj => h4.2.2.2 j (Nat.zero_le j) hj⟩
    · intro hk i hi
      obtain ⟨m, _, hm2, hm3⟩ :=
        waitPollLoop_error_deadline checkAt timeAt (t0 + T) (N + 1) 0 (hk ▸ hres)
      have him : i < m := by
        by_contra hge
        push_neg at hge
        exact hm2 (lt_of_le_of_lt (timeAt_mono timeAt hstep m i hge) hi)
      exact hm3 i (Nat.zero_le i) him
  · obtain ⟨res, hres⟩ := hterm checkAt
    refine ⟨N + 1, res.map (fun _ => ()), ?_⟩
    unfold wait_for_selector
    rw [h0, hres]
    rfl
  · intro urls pathOf pre
    obtain ⟨res, hres⟩ := hterm (fun i =>
      match urls i with
      | some u => startsWithL pre (pathOf u)
      | none => false)
    cases res with
    | ok i =>
      refine ⟨N + 1, .ok ((urls i).getD []), ?_⟩
      unfold wait_for_path
      rw [h0, hres]
    | error u =>
      cases u
      refine ⟨N + 1, .error (), ?_⟩
      unfold wait_for_path
      rw [h0, hres]

/-- C9 witness: a condition that first holds at the third poll, with
readings exactly 0.2 seconds apart starting at zero and the default
10-second timeout. -/
theorem claim_C9_witness :
    (∃ fuel res, waitPollLoop (fun i => decide (2 ≤ i)) (fun i => (i : ℚ) / 5)
        ((0 : ℚ) + 10) fuel 0 = some res
      ∧ (∀ k : Nat, res = Except.ok k → decide (2 ≤ k) = true
          ∧ (k : ℚ) / 5 < 0 + 10
          ∧ ∀ j < k, decide (2 ≤ j) = false)
      ∧ (res = Except.error () → ∀ i : Nat, (i : ℚ) / 5 < 0 + 10 →
          decide (2 ≤ i) = false))
    ∧ (∃ fuel r, wait_for_selector (fun i => decide (2 ≤ i)) (fun i => (i : ℚ) / 5)
        10 fuel = some r)
    ∧ (∀ (urls : Nat → Option (List Char)) (pathOf : List Char → List Char)
        (pre : List Char), ∃ fuel r,
        wait_for_path urls pathOf pre (fun i => (i : ℚ) / 5) 10 fuel = some r) :=
  claim_C9_wait_terminates (fun i => decide (2 ≤ i)) (fun i => (i : ℚ)/5) 0 10
    (by norm_num) (fun i => le_of_eq (by push_cast; ring))

/-! ## Claim C10 -/

/-- C10 counterexample: the original content is a valid JSON object
without an action key.  Validation exhausts (no-action, then two
no-json retries), `ainvoke` catches the error and keeps the content —
but since the content IS valid JSON, the attached action is the
decoded object itself, not the claimed substitute value (it does not
even contain an action key, which the substitute has). -/
theorem claim_C10_counterexample :
    ainvokeProcess ("\x7b\"x\": 1\x7d".data) (.ok "nope".data) (.ok "nope".data)
      = ("\x7b\"x\": 1\x7d".data, Json.obj [("x".data, Json.num "1".data)])
    ∧ (validate_and_retry_llm_response (cleanContent ("\x7b\"x\": 1\x7d".data))
        (.ok "nope".data) (.ok "nope".data)).1
      = .exhausted "no-json".data ("\x7b\"x\": 1\x7d".data)
    ∧ hasKey (Json.obj [("x".data, Json.num "1".data)]) actionKey = false
    ∧ hasKey errorFallbackAction actionKey = true :=
  ⟨rfl, rfl, rfl, rfl⟩

/-- C10 amended: when the coordinator exhausts its retries, `ainvoke`
catches the terminal error and returns a response instead of raising,
keeping the (cleaned) content as the response text; the attached
action is the JSON decode of that content when it decodes — whatever
object that is — and the substitute error action only when it does
not. -/
theorem claim_C10_exhaustion_not_raised (raw c1 c2 : List Char) (e0 e1 e2 : ParseFailure)
    (h0 : parse_action (cleanContent raw) = .error e0)
    (h1 : parse_action c1 = .error e1) (h2 : parse_action c2 = .error e2) :
    ainvokeProcess raw (.ok c1) (.ok c2)
      = (cleanContent raw,
          match pyJsonLoads (cleanContent raw) with
          | .ok j => j
          | .error _ => errorFallbackAction) := by
  unfold ainvokeProcess ainvokeValidateStage
  simp [validate_and_retry_llm_response, finalRetryStep, h0, h1, h2]

/-- C10 witness: the amended behaviour at the keyless-JSON content and
always-failing stubs. -/
theorem claim_C10_witness :
    ainvokeProcess ("\x7b\"x\": 1\x7d".data) (.ok "nah".data) (.ok "nah".data)
      = (cleanContent ("\x7b\"x\": 1\x7d".data),
          match pyJsonLoads (cleanContent ("\x7b\"x\": 1\x7d".data)) with
          | .ok j => j
          | .error _ => errorFallbackAction) :=
  claim_C10_exhaustion_not_raised ("\x7b\"x\": 1\x7d".data) "nah".data "nah".data
    .noAction .noJson .noJson rfl rfl rfl

end SmokeTest
